import Mathlib

/-!
Verification of the cvmfs gateway core slice: the receiver worker pool
(package receiver), the backend services container (package backend) and
the HTTP lease handlers (package frontend), as given in
src/internal/gateway/backend/backend.go.

Go errors are modelled as `Option String` (`none` = nil error, `some msg`
= an error whose Error() message is msg).  Fallible Go calls become
`Except String` values.  Handlers return the ordered list of writes they
perform on the http.ResponseWriter.
-/

namespace Gateway

/-- gw.RepositoryTag: user-supplied label attached at commit.  Opaque to
the core; modelled with the three fields the spec names. -/
structure RepositoryTag where
  name : String
  channel : String
  description : String
  deriving DecidableEq, Repr

/-- Opaque model of backend.LeaseReturn; its fields are outside the
visible source and no claim inspects them. -/
structure LeaseReturn where
  repr : String
  deriving DecidableEq, Repr

/-- Split a character list at every slash (all occurrences, like
strings.SplitN with the separator kept out of the pieces). -/
def splitSlash (cs : List Char) : List (List Char) :=
  match cs with
  | [] => [[]]
  | c :: rest =>
    if c = '/' then [] :: splitSlash rest
    else
      match splitSlash rest with
      | s :: ss => (c :: s) :: ss
      | [] => [[c]]

/-- Rejoin character segments with slashes. -/
def joinSlash (ss : List (List Char)) : List Char :=
  match ss with
  | [] => []
  | [s] => s
  | s :: rest => s ++ '/' :: joinSlash rest

/-- Modelled from the spec: gw.SplitLeasePath is not under src (only its
call site in the worker is).  The spec's lease path grammar is
repo-name slash optional sub path, the leading segment naming a
repository; a path with no separator or an empty repository name is
malformed and rejected with an error. -/
def SplitLeasePath (leasePath : String) : Except String (String × String) :=
  match splitSlash leasePath.toList with
  | [] => Except.error "invalid lease path"
  | [_] => Except.error "invalid lease path"
  | repo :: rest =>
      if repo = [] then Except.error "invalid lease path"
      else Except.ok (String.mk repo, String.mk (joinSlash rest))

/-! ## Receiver worker pool (package receiver) -/

/-- The task sum consumed by workers: payloadTask and commitTask from the
source (both carry a reply channel; here the reply writes are collected
in the resulting trace instead). -/
inductive Task where
  | payload (leasePath : String) (payload : List Nat) (digest : String) (headerSize : Nat)
  | commit (leasePath : String) (oldRootHash : String) (newRootHash : String) (tag : RepositoryTag)
  deriving DecidableEq, Repr

/-- One invocation of the receiver child process, with the arguments the
worker passed. -/
inductive RecvCall where
  | submitPayload (leasePath : String) (payload : List Nat) (digest : String) (headerSize : Nat)
  | commit (leasePath : String) (oldRootHash : String) (newRootHash : String) (tag : RepositoryTag)
  deriving DecidableEq, Repr

/-- Environment of one worker iteration: the outcomes of NewReceiver,
receiver.SubmitPayload, receiver.Commit and receiver.Quit for the task
at hand (`none` = nil error). -/
structure ReceiverBehavior where
  spawnErr : Option String
  submitPayloadResult : Option String
  commitResult : Option String
  quitErr : Option String
  deriving DecidableEq, Repr

/-- Observable trace of one worker iteration: the values sent on the
task's reply channel in order, the receiver invocations made, and the
repositories whose commit mutex was taken (in order). -/
structure WorkerTrace where
  replies : List (Option String)
  calls : List RecvCall
  locked : List String
  deriving DecidableEq, Repr

/-- The deferred cleanup registered after a successful NewReceiver: if
receiver.Quit() fails its error is sent on the reply channel. -/
def quitTail (env : ReceiverBehavior) : List (Option String) :=
  match env.quitErr with
  | some e => [some e]
  | none => []

/-- The per-task body of the worker loop (the anonymous func executed for
each task received from the channel), translated from the source:
spawn a receiver, register the deferred Quit check, branch on the task
tag (taking the per-repository commit lock around receiver.Commit),
send the result on the reply channel, then run the deferred Quit check. -/
def worker (env : ReceiverBehavior) (t : Task) : WorkerTrace :=
  match env.spawnErr with
  | some e => ⟨[some e], [], []⟩
  | none =>
    match t with
    | Task.payload lp pl d hs =>
        ⟨env.submitPayloadResult :: quitTail env,
         [RecvCall.submitPayload lp pl d hs], []⟩
    | Task.commit lp o n tag =>
        match SplitLeasePath lp with
        | Except.error e => ⟨some e :: quitTail env, [], []⟩
        | Except.ok (repo, _) =>
            ⟨env.commitResult :: quitTail env,
             [RecvCall.commit lp o n tag], [repo]⟩

/-! ## Per-repository commit mutex (Pool.withCommitLock)

Pool.withCommitLock(repository, f) does LoadOrStore of a fresh mutex
keyed by the repository name in the pool's sync.Map, locks it, runs f,
and unlocks it.  The worker's commit arm calls it with the repository
obtained from SplitLeasePath.  The lock discipline is embedded as a
small-step transition system: each worker executing the commit arm for
repository r is before the lock, inside the critical section (running
receiver.Commit), or done; `held` is the set of repository names whose
mutex is currently locked. -/

/-- Status of one worker's commit arm for its repository. -/
inductive WStatus where
  | before (repo : String)
  | inCrit (repo : String)
  | done (repo : String)
  deriving DecidableEq, Repr

/-- Global state: the workers' statuses and the repositories whose commit
mutex is held. -/
structure PoolState where
  workers : List WStatus
  held : List String
  deriving DecidableEq, Repr

/-- Interleaving semantics of withCommitLock: mtx.Lock() succeeds only
when no one holds the repository's mutex (sync.Map LoadOrStore yields
one mutex per repository name); mtx.Unlock() releases it. -/
inductive Step : PoolState → PoolState → Prop where
  | acquire (s : PoolState) (i : Nat) (r : String)
      (hget : s.workers[i]? = some (WStatus.before r))
      (hfree : r ∉ s.held) :
      Step s ⟨s.workers.set i (WStatus.inCrit r), r :: s.held⟩
  | release (s : PoolState) (i : Nat) (r : String)
      (hget : s.workers[i]? = some (WStatus.inCrit r)) :
      Step s ⟨s.workers.set i (WStatus.done r), s.held.erase r⟩

/-- Repositories of a list of commit tasks, as the worker derives them
via SplitLeasePath (payload tasks take no commit lock). -/
def commitRepos (ts : List Task) : List String :=
  ts.filterMap fun t =>
    match t with
    | Task.commit lp _ _ _ => (SplitLeasePath lp).toOption.map Prod.fst
    | Task.payload _ _ _ _ => none

/-- Initial state: every worker is before its lock, no mutex held. -/
def initState (repos : List String) : PoolState :=
  ⟨repos.map WStatus.before, []⟩

/-- Number of workers currently inside the critical section for
repository r. -/
def critCount (ws : List WStatus) (r : String) : Nat :=
  ws.countP fun w => decide (w = WStatus.inCrit r)

/-- Lock invariant: the held list has no duplicates, and the workers in
the critical section for r match the occurrences of r in held. -/
def LockInv (s : PoolState) : Prop :=
  s.held.Nodup ∧ ∀ r, critCount s.workers r = s.held.count r

/-- Mutual exclusion: no two distinct workers are inside the commit
critical section of the same repository. -/
def MutexSafe (s : PoolState) : Prop :=
  ∀ (i j : Nat) (r : String), i ≠ j → s.workers[i]? = some (WStatus.inCrit r) →
    s.workers[j]? = some (WStatus.inCrit r) → False

theorem countP_set (l : List α) (i : Nat) (a b : α) (p : α → Bool)
    (h : l[i]? = some a) :
    (l.set i b).countP p + (if p a then 1 else 0) =
      l.countP p + (if p b then 1 else 0) := by
  induction l generalizing i with
  | nil => simp at h
  | cons x xs ih =>
    cases i with
    | zero =>
      simp only [List.getElem?_cons_zero, Option.some.injEq] at h
      subst h
      simp [List.countP_cons]
      omega
    | succ n =>
      simp only [List.getElem?_cons_succ] at h
      have hx := ih n h
      simp [List.set, List.countP_cons]
      omega

theorem two_le_countP (l : List α) (p : α → Bool) (i j : Nat) (a b : α)
    (hij : i ≠ j) (ha : l[i]? = some a) (hb : l[j]? = some b)
    (hpa : p a = true) (hpb : p b = true) :
    2 ≤ l.countP p := by
  induction l generalizing i j with
  | nil => simp at ha
  | cons x xs ih =>
    cases i with
    | zero =>
      simp only [List.getElem?_cons_zero, Option.some.injEq] at ha
      subst ha
      cases j with
      | zero => exact absurd rfl hij
      | succ m =>
        simp only [List.getElem?_cons_succ] at hb
        have hmem : b ∈ xs := List.getElem?_mem hb
        have hpos : 0 < xs.countP p := List.countP_pos_iff.mpr ⟨b, hmem, hpb⟩
        have hcons : (x :: xs).countP p = xs.countP p + 1 := by
          simp [List.countP_cons, hpa]
        omega
    | succ n =>
      cases j with
      | zero =>
        simp only [List.getElem?_cons_zero, Option.some.injEq] at hb
        subst hb
        simp only [List.getElem?_cons_succ] at ha
        have hmem : a ∈ xs := List.getElem?_mem ha
        have hpos : 0 < xs.countP p := List.countP_pos_iff.mpr ⟨a, hmem, hpa⟩
        have hcons : (x :: xs).countP p = xs.countP p + 1 := by
          simp [List.countP_cons, hpb]
        omega
      | succ m =>
        simp only [List.getElem?_cons_succ] at ha hb
        have hnm : n ≠ m := by
          intro hc; exact hij (by simp [hc])
        have hle := ih n m hnm ha hb
        have hcons : xs.countP p ≤ (x :: xs).countP p := by
          simp [List.countP_cons]
        omega

theorem lockInv_init (repos : List String) : LockInv (initState repos) := by
  constructor
  · simp [initState]
  · intro r
    simp only [initState, critCount, List.count_nil]
    rw [List.countP_eq_zero]
    intro w hw
    rcases List.mem_map.mp hw with ⟨x, _, hx⟩
    subst hx
    simp

theorem lockInv_step (s s2 : PoolState) (h : Step s s2) (hi : LockInv s) :
    LockInv s2 := by
  rcases hi with ⟨hn, hc⟩
  cases h with
  | acquire i r hget hfree =>
    refine ⟨List.nodup_cons.mpr ⟨hfree, hn⟩, ?_⟩
    intro q
    have hset := countP_set s.workers i (WStatus.before r) (WStatus.inCrit r)
      (fun w => decide (w = WStatus.inCrit q)) hget
    have hq := hc q
    simp only [critCount] at hq ⊢
    by_cases hrq : r = q
    · subst hrq
      have hset2 : (s.workers.set i (WStatus.inCrit r)).countP
          (fun w => decide (w = WStatus.inCrit r)) =
          s.workers.countP (fun w => decide (w = WStatus.inCrit r)) + 1 := by
        simpa using hset
      have hcount : (r :: s.held).count r = s.held.count r + 1 := by
        simp [List.count_cons]
      rw [hset2, hcount, hq]
    · have hset2 : (s.workers.set i (WStatus.inCrit r)).countP
          (fun w => decide (w = WStatus.inCrit q)) =
          s.workers.countP (fun w => decide (w = WStatus.inCrit q)) := by
        simpa [hrq] using hset
      have hqr : ¬ q = r := fun hx => hrq hx.symm
      have hcount : (r :: s.held).count q = s.held.count q := by
        simp [List.count_cons, hqr]
      rw [hset2, hcount, hq]
  | release i r hget =>
    refine ⟨hn.erase r, ?_⟩
    intro q
    have hset := countP_set s.workers i (WStatus.inCrit r) (WStatus.done r)
      (fun w => decide (w = WStatus.inCrit q)) hget
    have hq := hc q
    have hr := hc r
    have hmem : WStatus.inCrit r ∈ s.workers := List.getElem?_mem hget
    have hpos : 0 < critCount s.workers r := by
      simp only [critCount]
      exact List.countP_pos_iff.mpr ⟨WStatus.inCrit r, hmem, by simp⟩
    simp only [critCount] at hq hr hpos ⊢
    by_cases hrq : r = q
    · subst hrq
      have hset2 : (s.workers.set i (WStatus.done r)).countP
          (fun w => decide (w = WStatus.inCrit r)) + 1 =
          s.workers.countP (fun w => decide (w = WStatus.inCrit r)) := by
        simpa using hset
      rw [List.count_erase_self]
      omega
    · have hset2 : (s.workers.set i (WStatus.done r)).countP
          (fun w => decide (w = WStatus.inCrit q)) =
          s.workers.countP (fun w => decide (w = WStatus.inCrit q)) := by
        simpa [hrq] using hset
      rw [List.count_erase_of_ne (fun hc2 => hrq hc2.symm)]
      omega

theorem lockInv_reachable (repos : List String) (s : PoolState)
    (h : Relation.ReflTransGen Step (initState repos) s) : LockInv s := by
  induction h with
  | refl => exact lockInv_init repos
  | tail _ hstep ih => exact lockInv_step _ _ hstep ih

theorem mutexSafe_of_lockInv (s : PoolState) (hi : LockInv s) : MutexSafe s := by
  rcases hi with ⟨hn, hc⟩
  intro i j r hij hgi hgj
  have h2 : 2 ≤ critCount s.workers r :=
    two_le_countP s.workers _ i j _ _ hij hgi hgj (by simp) (by simp)
  have h1 : s.held.count r ≤ 1 := List.nodup_iff_count_le_one.mp hn r
  have := hc r
  omega

/-! ## HTTP lease handlers (package frontend)

A handler's observable behavior is the ordered list of writes it makes
on the http.ResponseWriter: httpWrapError / http.Error writes
(message, HTTP status code), and replyJSON writes a JSON object.  The
JSON object is the msg map in insertion order. -/

/-- A JSON value appearing in a handler reply. -/
inductive JVal where
  | str (s : String)
  | num (n : Int)
  | null
  | leaseMap (m : List (String × LeaseReturn))
  | lease (l : LeaseReturn)
  deriving DecidableEq, Repr

/-- One write on the response: an error write (httpWrapError or
http.Error, carrying the message and the HTTP status code) or a
replyJSON body. -/
inductive HttpWrite where
  | httpError (message : String) (status : Nat)
  | json (msg : List (String × JVal))
  deriving DecidableEq, Repr

/-- Model of Go strconv.Atoi for in-range inputs: an optional sign
followed by at least one decimal digit, covering the whole string;
anything else is a parse error (`none`).  The handler discards the
error, so the accompanying Go return value 0 is recovered via
`(atoi s).getD 0`. -/
def digitsVal (cs : List Char) : Option Nat :=
  match cs with
  | [] => none
  | _ =>
    cs.foldl
      (fun acc c =>
        acc.bind fun n => if c.isDigit then some (10 * n + (c.toNat - 48)) else none)
      (some 0)

def atoi (s : String) : Option Int :=
  match s.toList with
  | '+' :: rest => (digitsVal rest).map Int.ofNat
  | '-' :: rest => (digitsVal rest).map fun n => -(n : Int)
  | l => (digitsVal l).map Int.ofNat

/-- Modelled from the spec: frontend.MaxAPIVersion is not under src (only
its call site in handleNewLease is).  The spec's version negotiation
replies with max api version = min(clientVersion, server max). -/
def MaxAPIVersion (serverMax clientVersion : Int) : Int :=
  min clientVersion serverMax

/-- The reason string built by handleNewLease for an incompatible
version (fmt.Sprintf with the client and minimum versions). -/
def incompatibleVersionReason (clientVersion minVersion : Int) : String :=
  "incompatible request version: " ++ toString clientVersion ++
    ", min version: " ++ toString minVersion

/-- Outcome of the backend be.NewLease call as the handler inspects it:
success with a session token, a be.PathBusyError (whose
Remaining().String() is the carried duration string), or any other
error with its message. -/
inductive NewLeaseResult where
  | ok (token : String)
  | pathBusy (remaining : String)
  | err (msg : String)
  deriving DecidableEq, Repr

/-- frontend.handleNewLease, translated from the source.  The decoded
request body is `some (path, apiVersionString)` or `none` for a body
that fails to decode.  MinAPIProtocolVersion and the server maximum
are parameters (their numeric values are outside the visible source).
Returns the response writes and whether be.NewLease was invoked. -/
def handleNewLease (minAPIProtocolVersion serverMax : Int)
    (body : Option (String × String)) (newLease : NewLeaseResult) :
    List HttpWrite × Bool :=
  match body with
  | none => ([HttpWrite.httpError "invalid request body" 400], false)
  | some (_, versionStr) =>
    let clientVersion : Int := (atoi versionStr).getD 0
    if clientVersion < minAPIProtocolVersion then
      ([HttpWrite.json [("status", JVal.str "error"),
         ("reason", JVal.str (incompatibleVersionReason clientVersion minAPIProtocolVersion))]],
       false)
    else
      match newLease with
      | NewLeaseResult.pathBusy rem =>
          ([HttpWrite.json [("status", JVal.str "path_busy"),
             ("time_remaining", JVal.str rem)]], true)
      | NewLeaseResult.err m =>
          ([HttpWrite.json [("status", JVal.str "error"),
             ("reason", JVal.str m)]], true)
      | NewLeaseResult.ok tok =>
          ([HttpWrite.json [("status", JVal.str "ok"),
             ("session_token", JVal.str tok),
             ("max_api_version", JVal.num (MaxAPIVersion serverMax clientVersion))]], true)

/-- frontend.handleGetLeases, translated from the source.  For the
collection form (empty token) the be.GetLeases outcome is consulted;
for the single-lease form the be.GetLease outcome.  In Go, a failing
call leaves the result at its zero value (nil), rendered as JSON null.
Note the source has no return after httpWrapError: on error the
handler still falls through to replyJSON. -/
def handleGetLeases (token : String)
    (getLeasesResult : Except String (List (String × LeaseReturn)))
    (getLeaseResult : Except String LeaseReturn) : List HttpWrite :=
  if token = "" then
    match getLeasesResult with
    | Except.error e =>
        [HttpWrite.httpError e 500,
         HttpWrite.json [("status", JVal.str "ok"), ("data", JVal.null)]]
    | Except.ok leases =>
        [HttpWrite.json [("status", JVal.str "ok"), ("data", JVal.leaseMap leases)]]
  else
    match getLeaseResult with
    | Except.error e =>
        [HttpWrite.httpError e 500,
         HttpWrite.json [("data", JVal.null)]]
    | Except.ok lease =>
        [HttpWrite.json [("data", JVal.lease lease)]]

/-- frontend.handleCommitLease, translated from the source.  The decoded
body is `some (oldRootHash, newRootHash, tag)` or `none` for a body
that fails to decode; commitResult is the be.CommitLease error
(`none` = nil). -/
def handleCommitLease (body : Option (String × String × RepositoryTag))
    (commitResult : Option String) : List HttpWrite :=
  match body with
  | none => [HttpWrite.httpError "invalid request body" 400]
  | some _ =>
    match commitResult with
    | some e => [HttpWrite.json [("status", JVal.str "error"), ("reason", JVal.str e)]]
    | none => [HttpWrite.json [("status", JVal.str "ok")]]

/-- Outcome of the backend be.CancelLease call as the handler inspects
it: success, a be.InvalidTokenError (with its message), or any other
error with its message. -/
inductive CancelResult where
  | ok
  | invalidToken (msg : String)
  | err (msg : String)
  deriving DecidableEq, Repr

/-- frontend.handleCancelLease, translated from the source. -/
def handleCancelLease (token : String) (cancel : CancelResult) : List HttpWrite :=
  if token = "" then [HttpWrite.httpError "missing token" 400]
  else
    match cancel with
    | CancelResult.invalidToken _ =>
        [HttpWrite.json [("status", JVal.str "error"), ("reason", JVal.str "invalid_token")]]
    | CancelResult.err m =>
        [HttpWrite.json [("status", JVal.str "error"), ("reason", JVal.str m)]]
    | CancelResult.ok =>
        [HttpWrite.json [("status", JVal.str "ok")]]

/-! ## Claims -/

/-- C1: the spec requires exactly one value to be written to a task's
reply channel per task, in every case.  The code violates this: for a
payload task that runs to completion on a receiver whose Quit() then
fails during cleanup, the worker sends the task result and the deferred
cleanup then sends the Quit error — two values on the single-shot reply
slot. -/
theorem C1_reply_double_write :
    (worker ⟨none, none, none, some "quit failed"⟩
        (Task.payload "repoA/x" [1, 2] "sha1:ab" 16)).replies =
      [none, some "quit failed"] ∧
    (worker ⟨none, none, none, some "quit failed"⟩
        (Task.payload "repoA/x" [1, 2] "sha1:ab" 16)).replies.length = 2 :=
  ⟨rfl, rfl⟩

/-- C2: a new-lease request with declared api_version below
MinAPIProtocolVersion is answered with status error and the
incompatible-version reason without invoking be.NewLease; otherwise a
successful request is answered with max_api_version equal to
min(clientVersion, server maximum). -/
theorem C2_version_negotiation (minV maxV : Int) (path vs : String)
    (res : NewLeaseResult) :
    ((atoi vs).getD 0 < minV →
      handleNewLease minV maxV (some (path, vs)) res =
        ([HttpWrite.json [("status", JVal.str "error"),
           ("reason", JVal.str (incompatibleVersionReason ((atoi vs).getD 0) minV))]],
         false)) ∧
    (minV ≤ (atoi vs).getD 0 → ∀ tok, res = NewLeaseResult.ok tok →
      handleNewLease minV maxV (some (path, vs)) res =
        ([HttpWrite.json [("status", JVal.str "ok"),
           ("session_token", JVal.str tok),
           ("max_api_version", JVal.num (min ((atoi vs).getD 0) maxV))]], true)) := by
  constructor
  · intro h
    simp only [handleNewLease]
    rw [if_pos h]
  · intro h tok hres
    subst hres
    simp only [handleNewLease, MaxAPIVersion]
    rw [if_neg (not_lt.mpr h)]

theorem C2_witness :
    handleNewLease 2 3 (some ("repoA/x", "1")) (NewLeaseResult.ok "tok") =
      ([HttpWrite.json [("status", JVal.str "error"),
         ("reason", JVal.str (incompatibleVersionReason 1 2))]], false) ∧
    handleNewLease 2 3 (some ("repoA/x", "3")) (NewLeaseResult.ok "tok") =
      ([HttpWrite.json [("status", JVal.str "ok"),
         ("session_token", JVal.str "tok"),
         ("max_api_version", JVal.num 3)]], true) := by
  constructor
  · have h := (C2_version_negotiation 2 3 "repoA/x" "1" (NewLeaseResult.ok "tok")).1
      (by decide)
    have hv : (atoi "1").getD 0 = 1 := by decide
    rw [hv] at h
    exact h
  · have h := (C2_version_negotiation 2 3 "repoA/x" "3" (NewLeaseResult.ok "tok")).2
      (by decide) "tok" rfl
    have hv : (atoi "3").getD 0 = 3 := by decide
    rw [hv] at h
    simpa using h

/-- C3: with a compatible version, a be.NewLease failure with
PathBusyError yields status path_busy carrying the blocking lease's
remaining time-to-expiry, any other failure yields status error with
the error's message as reason, and success yields status ok with a
session token. -/
theorem C3_new_lease_outcomes (minV maxV : Int) (path vs : String)
    (h : minV ≤ (atoi vs).getD 0) :
    (∀ rem, handleNewLease minV maxV (some (path, vs)) (NewLeaseResult.pathBusy rem) =
        ([HttpWrite.json [("status", JVal.str "path_busy"),
           ("time_remaining", JVal.str rem)]], true)) ∧
    (∀ m, handleNewLease minV maxV (some (path, vs)) (NewLeaseResult.err m) =
        ([HttpWrite.json [("status", JVal.str "error"),
           ("reason", JVal.str m)]], true)) ∧
    (∀ tok, handleNewLease minV maxV (some (path, vs)) (NewLeaseResult.ok tok) =
        ([HttpWrite.json [("status", JVal.str "ok"),
           ("session_token", JVal.str tok),
           ("max_api_version",
             JVal.num (MaxAPIVersion maxV ((atoi vs).getD 0)))]], true)) := by
  refine ⟨fun rem => ?_, fun m => ?_, fun tok => ?_⟩ <;>
    · simp only [handleNewLease]
      rw [if_neg (not_lt.mpr h)]

theorem C3_witness :
    handleNewLease 2 3 (some ("repoA/x", "2")) (NewLeaseResult.pathBusy "42s") =
      ([HttpWrite.json [("status", JVal.str "path_busy"),
         ("time_remaining", JVal.str "42s")]], true) ∧
    handleNewLease 2 3 (some ("repoA/x", "2")) (NewLeaseResult.err "boom") =
      ([HttpWrite.json [("status", JVal.str "error"),
         ("reason", JVal.str "boom")]], true) := by
  have h := C3_new_lease_outcomes 2 3 "repoA/x" "2" (by decide)
  exact ⟨h.1 "42s", h.2.1 "boom"⟩

/-- C4: when a worker processes a task, the first value delivered on the
reply channel at task completion is exactly the receiver call's return
value, unmodified (SubmitPayload result for a payload task, Commit
result for a commit task), and the receiver is invoked at most once
per task — there is no retry. -/
theorem C4_verbatim_no_retry (env : ReceiverBehavior) (t : Task) :
    (worker env t).calls.length ≤ 1 ∧
    (env.spawnErr = none →
      (∀ lp pl d hs, t = Task.payload lp pl d hs →
        (worker env t).replies.head? = some env.submitPayloadResult ∧
        (worker env t).calls = [RecvCall.submitPayload lp pl d hs]) ∧
      (∀ lp o n tag repo sub, t = Task.commit lp o n tag →
        SplitLeasePath lp = Except.ok (repo, sub) →
        (worker env t).replies.head? = some env.commitResult ∧
        (worker env t).calls = [RecvCall.commit lp o n tag])) := by
  constructor
  · rcases env with ⟨se, sr, cr, qe⟩
    cases se with
    | some e => simp [worker]
    | none =>
      cases t with
      | payload lp pl d hs => simp [worker]
      | commit lp o n tag =>
        simp only [worker]
        cases hs : SplitLeasePath lp with
        | error e => simp
        | ok pr =>
          cases pr
          simp
  · intro hspawn
    constructor
    · intro lp pl d hs ht
      subst ht
      simp [worker, hspawn]
    · intro lp o n tag repo sub ht hsplit
      subst ht
      simp [worker, hspawn, hsplit]

theorem C4_witness :
    (worker ⟨none, some "receiver boom", none, none⟩
        (Task.payload "repoA/x" [] "d" 0)).replies.head? = some (some "receiver boom") ∧
    (worker ⟨none, some "receiver boom", none, none⟩
        (Task.payload "repoA/x" [] "d" 0)).calls =
      [RecvCall.submitPayload "repoA/x" [] "d" 0] :=
  ((C4_verbatim_no_retry ⟨none, some "receiver boom", none, none⟩
      (Task.payload "repoA/x" [] "d" 0)).2 rfl).1 "repoA/x" [] "d" 0 rfl

/-- C5: two commit tasks for the same repository never run the
receiver's commit concurrently (every state reachable under the commit
lock discipline is mutex safe), while commit tasks for different
repositories may: a state with two workers simultaneously inside their
commit critical sections for repoA and repoB is reachable. -/
theorem C5_commit_mutual_exclusion :
    (∀ (repos : List String) (s : PoolState),
        Relation.ReflTransGen Step (initState repos) s → MutexSafe s) ∧
    Relation.ReflTransGen Step
      (initState (commitRepos
        [Task.commit "repoA/x" "o1" "n1" ⟨"t", "c", "d"⟩,
         Task.commit "repoB/y" "o2" "n2" ⟨"t", "c", "d"⟩]))
      ⟨[WStatus.inCrit "repoA", WStatus.inCrit "repoB"], ["repoB", "repoA"]⟩ := by
  constructor
  · intro repos s h
    exact mutexSafe_of_lockInv s (lockInv_reachable repos s h)
  · have h0 : initState (commitRepos
        [Task.commit "repoA/x" "o1" "n1" ⟨"t", "c", "d"⟩,
         Task.commit "repoB/y" "o2" "n2" ⟨"t", "c", "d"⟩]) =
        ⟨[WStatus.before "repoA", WStatus.before "repoB"], []⟩ := rfl
    rw [h0]
    have s1 : Step ⟨[WStatus.before "repoA", WStatus.before "repoB"], []⟩
        ⟨[WStatus.inCrit "repoA", WStatus.before "repoB"], ["repoA"]⟩ := by
      have hstep := Step.acquire
        ⟨[WStatus.before "repoA", WStatus.before "repoB"], []⟩ 0 "repoA"
        (by rfl) (by simp)
      exact hstep
    have s2 : Step ⟨[WStatus.inCrit "repoA", WStatus.before "repoB"], ["repoA"]⟩
        ⟨[WStatus.inCrit "repoA", WStatus.inCrit "repoB"], ["repoB", "repoA"]⟩ := by
      have hstep := Step.acquire
        ⟨[WStatus.inCrit "repoA", WStatus.before "repoB"], ["repoA"]⟩ 1 "repoB"
        (by rfl) (by simp)
      exact hstep
    exact Relation.ReflTransGen.head s1
      (Relation.ReflTransGen.head s2 Relation.ReflTransGen.refl)

theorem C5_witness : MutexSafe (initState ["repoA", "repoB"]) :=
  C5_commit_mutual_exclusion.1 ["repoA", "repoB"] (initState ["repoA", "repoB"])
    Relation.ReflTransGen.refl

/-- C6: the claim says a failing backend lookup yields only the 500
error response.  The code violates this: handleGetLeases has no return
after httpWrapError, so on a lookup failure it writes the 500 error and
then falls through to replyJSON, also writing the success-shaped JSON
body (with null data), in both the collection and single-lease forms;
a successful lookup yields the JSON body with the lease data. -/
theorem C6_get_leases_error_fallthrough :
    handleGetLeases "" (Except.error "lease db failure") (Except.ok ⟨"l1"⟩) =
      [HttpWrite.httpError "lease db failure" 500,
       HttpWrite.json [("status", JVal.str "ok"), ("data", JVal.null)]] ∧
    handleGetLeases "tok123" (Except.ok []) (Except.error "lease db failure") =
      [HttpWrite.httpError "lease db failure" 500,
       HttpWrite.json [("data", JVal.null)]] ∧
    handleGetLeases "" (Except.ok [("repoA/x", ⟨"l1"⟩)]) (Except.ok ⟨"l1"⟩) =
      [HttpWrite.json [("status", JVal.str "ok"),
         ("data", JVal.leaseMap [("repoA/x", ⟨"l1"⟩)])]] :=
  ⟨rfl, rfl, rfl⟩

/-- C7: for a DELETE with a token, a be.CancelLease failure with
InvalidTokenError yields status error with reason exactly
invalid_token, any other failure yields status error with the error's
message as reason, and success yields status ok. -/
theorem C7_cancel_lease (token : String) (h : token ≠ "") :
    (∀ m, handleCancelLease token (CancelResult.invalidToken m) =
        [HttpWrite.json [("status", JVal.str "error"),
           ("reason", JVal.str "invalid_token")]]) ∧
    (∀ m, handleCancelLease token (CancelResult.err m) =
        [HttpWrite.json [("status", JVal.str "error"),
           ("reason", JVal.str m)]]) ∧
    handleCancelLease token CancelResult.ok =
      [HttpWrite.json [("status", JVal.str "ok")]] := by
  refine ⟨fun m => ?_, fun m => ?_, ?_⟩ <;> simp [handleCancelLease, h]

theorem C7_witness :
    handleCancelLease "tok123" (CancelResult.invalidToken "token not found") =
      [HttpWrite.json [("status", JVal.str "error"),
         ("reason", JVal.str "invalid_token")]] ∧
    handleCancelLease "tok123" CancelResult.ok =
      [HttpWrite.json [("status", JVal.str "ok")]] := by
  have h := C7_cancel_lease "tok123" (by decide)
  exact ⟨h.1 "token not found", h.2.2⟩

/-- C8: a commit request with a well-formed body is answered with status
ok exactly when be.CommitLease returns no error; otherwise status error
with that error's message as reason; an undecodable body yields HTTP
status 400. -/
theorem C8_commit_lease (oldHash newHash : String) (tag : RepositoryTag)
    (commitResult : Option String) :
    (handleCommitLease (some (oldHash, newHash, tag)) commitResult =
        [HttpWrite.json [("status", JVal.str "ok")]] ↔ commitResult = none) ∧
    (∀ m, commitResult = some m →
      handleCommitLease (some (oldHash, newHash, tag)) commitResult =
        [HttpWrite.json [("status", JVal.str "error"),
           ("reason", JVal.str m)]]) ∧
    handleCommitLease none commitResult =
      [HttpWrite.httpError "invalid request body" 400] := by
  refine ⟨?_, ?_, rfl⟩
  · cases commitResult with
    | none => simp [handleCommitLease]
    | some m => simp [handleCommitLease]
  · intro m hm
    subst hm
    rfl

theorem C8_witness :
    handleCommitLease (some ("oldhash", "newhash", ⟨"t", "c", "d"⟩)) (some "commit failed") =
      [HttpWrite.json [("status", JVal.str "error"),
         ("reason", JVal.str "commit failed")]] :=
  (C8_commit_lease "oldhash" "newhash" ⟨"t", "c", "d"⟩ (some "commit failed")).2.1
    "commit failed" rfl

/-- C9: a new-lease request whose api_version is absent or not a decimal
integer string has its parse error discarded and the version treated as
0, so whenever MinAPIProtocolVersion is positive the request is
rejected with the incompatible-version error and be.NewLease is never
invoked. -/
theorem C9_unparsable_version (minV maxV : Int) (path vs : String)
    (res : NewLeaseResult) (hparse : atoi vs = none) (hmin : 0 < minV) :
    handleNewLease minV maxV (some (path, vs)) res =
      ([HttpWrite.json [("status", JVal.str "error"),
         ("reason", JVal.str (incompatibleVersionReason 0 minV))]], false) := by
  simp only [handleNewLease, hparse, Option.getD_none]
  rw [if_pos hmin]

theorem C9_witness :
    handleNewLease 2 3 (some ("repoA/x", "")) (NewLeaseResult.ok "tok") =
      ([HttpWrite.json [("status", JVal.str "error"),
         ("reason", JVal.str (incompatibleVersionReason 0 2))]], false) :=
  C9_unparsable_version 2 3 "repoA/x" "" (NewLeaseResult.ok "tok") rfl (by decide)

/-- C10: when a commit task's lease path cannot be split into a
repository and sub-path, the worker writes the split error to the reply
channel and returns without taking any commit mutex and without
invoking the receiver's Commit. -/
theorem C10_commit_bad_path (env : ReceiverBehavior) (hspawn : env.spawnErr = none)
    (lp o n : String) (tag : RepositoryTag) (e : String)
    (hsplit : SplitLeasePath lp = Except.error e) :
    (worker env (Task.commit lp o n tag)).replies.head? = some (some e) ∧
    (worker env (Task.commit lp o n tag)).calls = [] ∧
    (worker env (Task.commit lp o n tag)).locked = [] := by
  simp [worker, hspawn, hsplit]

theorem C10_witness :
    (worker ⟨none, none, none, none⟩
        (Task.commit "norepo" "o" "n" ⟨"t", "c", "d"⟩)).replies.head? =
      some (some "invalid lease path") ∧
    (worker ⟨none, none, none, none⟩
        (Task.commit "norepo" "o" "n" ⟨"t", "c", "d"⟩)).calls = [] ∧
    (worker ⟨none, none, none, none⟩
        (Task.commit "norepo" "o" "n" ⟨"t", "c", "d"⟩)).locked = [] :=
  C10_commit_bad_path ⟨none, none, none, none⟩ rfl "norepo" "o" "n" ⟨"t", "c", "d"⟩
    "invalid lease path" rfl

end Gateway
